import Mathlib

/-
Verification development for the Obl-Claude-Code repository.

Source files embedded here:
  src/automation/process-orchestrator.py  (process orchestration engine)
  src/webhooks/obl-webhook-handler.py     (webhook signature checking and dispatch)

The orchestrator source implements configuration loading, the top-level
execute_process_chain coordinator, the execution report and the command-line
exit mapping, but its two core methods (_build_execution_plan and
_execute_steps_parallel) are bare stubs whose bodies are a single pass
statement, so each returns None.  Definitions for the dependency graph
builder, the scheduler state machine and the step runner are therefore
modelled from the specification and carry a doc comment saying so; the rest
is translated directly from the source.
-/

/-- Embeds the ProcessStatus enum of process-orchestrator.py lines 22-28.
The source enum has exactly these six members; the richer status set of the
specification is a separate type, StepStatus, below. -/
inductive ProcessStatus where
  | pending
  | running
  | completed
  | failed
  | retrying
  | cancelled
deriving DecidableEq

/-- Embeds the ProcessStep dataclass of process-orchestrator.py lines 30-43.
A Python Dict[str, str] is represented as an association list. -/
structure ProcessStep where
  name : String
  command : String
  dependencies : List String
  timeout : Nat
  retry_count : Nat
  retry_delay : Nat
  critical : Bool
  environment : List (String × String)
  condition : Option String := none
deriving DecidableEq

/-- Modelled from the spec: the per-step status set of the scheduler state
machine in section 4.2 (Pending, Ready, Running, Retrying, Completed, Failed,
Skipped, Cancelled).  The source enum lacks ready and skipped because the
scheduler method that would use them is an unimplemented stub. -/
inductive StepStatus where
  | pending
  | ready
  | running
  | retrying
  | completed
  | failed
  | skipped
  | cancelled
deriving DecidableEq

/-- A status from which no further transition occurs (spec glossary). -/
def TerminalStatus (st : StepStatus) : Prop :=
  st = .completed ∨ st = .failed ∨ st = .skipped ∨ st = .cancelled

instance (st : StepStatus) : Decidable (TerminalStatus st) := by
  unfold TerminalStatus; infer_instance

/-- Embeds line 105 of process-orchestrator.py: all(results.values()),
the overall boolean outcome of execute_process_chain, applied to the
per-step boolean results map (a Python dict as an association list). -/
def overall_outcome (results : List (String × Bool)) : Bool :=
  results.all (fun r => r.2)

/-- Embeds lines 130-135 of process-orchestrator.py: the success_rate field
of the execution report, sum(results.values()) / len(results) if results
else 0.  The sum of Python booleans is the number of true entries; Python
true division of two ints is rational division. -/
def success_rate (results : List (String × Bool)) : ℚ :=
  if results.isEmpty then 0
  else ((results.filter (fun r => r.2)).length : ℚ) / (results.length : ℚ)

/-- Embeds line 152 of process-orchestrator.py: exit(0 if result else 1). -/
def exit_code (result : Bool) : Nat :=
  if result then 0 else 1

/-- A Python exception, as raised and caught by the orchestrator and the
webhook handler.  Only the classes the embedded code paths can raise are
listed. -/
inductive PyErr where
  | keyError
  | attributeError
  | ioError
  | valueError
deriving DecidableEq

/-- Embeds the try/except shape of execute_process_chain, lines 92-109 of
process-orchestrator.py: the value the caller receives, as a function of
the outcome of the try block.  A normally computed boolean is returned as
is; every raised exception is caught by the except Exception handler and
turned into False. -/
def chain_result (body : Except PyErr Bool) : Bool :=
  match body with
  | .ok b => b
  | .error _ => false

/-- A raw step mapping of the YAML configuration (untyped key-value data,
exactly what process_def['steps'] holds before any validation). -/
def RawStep : Type := List (String × String)

/-- A process definition entry of the configuration: the mapping under one
process name, holding its raw step list. -/
structure ProcessDef where
  steps : List RawStep

/-- The loaded YAML configuration of the orchestrator: the mapping under
the processes key. -/
structure OrchestratorConfig where
  processes : List (String × ProcessDef)

/-- Embeds line 96 of process-orchestrator.py: self.config['processes'][process_name];
a missing process name raises KeyError. -/
def lookup_process (cfg : OrchestratorConfig) (pname : String) : Except PyErr ProcessDef :=
  match cfg.processes.lookup pname with
  | some pd => .ok pd
  | none => .error .keyError

/-- Embeds lines 111-117 of process-orchestrator.py: the body of
_build_execution_plan is a single pass statement, so the call returns None
(modelled as none) whatever its argument. -/
def build_execution_plan_stub (_steps : List RawStep) : Option (List ProcessStep) :=
  none

/-- Embeds lines 119-124 of process-orchestrator.py: the body of
_execute_steps_parallel is a single pass statement, so the call returns
None (modelled as none) whatever its argument. -/
def execute_steps_parallel_stub (_steps : Option (List ProcessStep)) :
    Option (List (String × Bool)) :=
  none

/-- The success_rate expression of line 134 applied to the value
_execute_steps_parallel actually produced: in Python, None is falsy, so
`if results` selects the 0 branch when results is None as well as when it
is an empty dict. -/
def success_rate_py (results : Option (List (String × Bool))) : ℚ :=
  match results with
  | none => 0
  | some l => success_rate l

/-- Embeds lines 126-138 of process-orchestrator.py: the report dict is
built (computing success_rate), then written to a file under reports/.
The file write is an external effect that may raise (for instance when the
reports directory does not exist); its outcome is passed in as ioOutcome
and a raised exception propagates to the caller. -/
def generate_execution_report (results : Option (List (String × Bool)))
    (ioOutcome : Except PyErr Unit) : Except PyErr ℚ :=
  let rate := success_rate_py results
  match ioOutcome with
  | .error e => .error e
  | .ok _ => .ok rate

/-- Embeds line 105 applied to the value _execute_steps_parallel actually
produced: all(results.values()) raises AttributeError when results is None. -/
def all_values (results : Option (List (String × Bool))) : Except PyErr Bool :=
  match results with
  | none => .error .attributeError
  | some l => .ok (overall_outcome l)

/-- Embeds execute_process_chain, lines 82-109 of process-orchestrator.py,
over the source as it stands (with its two stubbed core methods): look the
process up in the configuration, call the two stubs, generate the report,
and return all(results.values()); any exception raised along the way is
caught by the except handler and turned into False. -/
def execute_process_chain (cfg : OrchestratorConfig) (pname : String)
    (ioOutcome : Except PyErr Unit) : Bool :=
  chain_result (do
    let pd ← lookup_process cfg pname
    let steps := build_execution_plan_stub pd.steps
    let results := execute_steps_parallel_stub steps
    let _ ← generate_execution_report results ioOutcome
    all_values results)

/-- Embeds lines 149-152 of process-orchestrator.py: the command-line entry
point runs execute_process_chain and exits with 0 on True, 1 on False. -/
def main_exit (cfg : OrchestratorConfig) (pname : String)
    (ioOutcome : Except PyErr Unit) : Nat :=
  exit_code (execute_process_chain cfg pname ioOutcome)

/-- Embeds verify_signature, lines 63-74 of obl-webhook-handler.py.  The
HMAC-SHA256 hex digest under the configured secret is an external library
call, abstracted as the function argument hmacHexDigest from the raw
payload; `if not signature` is Python falsiness, true for a missing header
(None) and for an empty string; hmac.compare_digest is string equality. -/
def verify_signature (hmacHexDigest : String → String) (payload : String)
    (signature : Option String) : Bool :=
  match signature with
  | none => false
  | some s => if s = "" then false else ("sha256=" ++ hmacHexDigest payload) == s

/-- Embeds handle_obl_webhook, lines 76-106 of obl-webhook-handler.py: the
HTTP status returned and the list of processing routines invoked.  JSON
parsing of the payload is the external json.loads call, abstracted as
parseJson returning data.get('action'); a parse failure is caught by the
except handler and answered with status 500.  When the signature check
fails the handler answers 401 before parsing and dispatches nothing. -/
def handle_obl_webhook (hmacHexDigest : String → String)
    (parseJson : String → Except PyErr (Option String))
    (payload : String) (signature : Option String) : Nat × List String :=
  if verify_signature hmacHexDigest payload signature then
    match parseJson payload with
    | .error _ => (500, [])
    | .ok act =>
      match act with
      | some "task_request" => (200, ["process_task_request"])
      | some "deployment_trigger" => (200, ["trigger_deployment"])
      | some "status_update" => (200, ["update_status"])
      | _ => (200, [])
  else (401, [])

/-- The per-run scheduler state: the status of every step name, and the
halted flag set when a critical failure has told the coordinator to stop
awaiting new dispatches (spec sections 4.2 and 5). -/
structure SchedState where
  status : String → StepStatus
  halted : Bool

/-- Pointwise update of one step status inside the scheduler state. -/
def setStatus (s : SchedState) (u : String) (st : StepStatus) : SchedState :=
  ⟨fun w => if w = u then st else s.status w, s.halted⟩

/-- Modelled from the spec: rule 4 of section 4.2 — on a critical failure
the scheduler immediately marks every step still Pending or Ready as
Cancelled; statuses past those two are left to finish cooperatively. -/
def cancelPendingReady (f : String → StepStatus) : String → StepStatus :=
  fun w => if f w = .pending ∨ f w = .ready then .cancelled else f w

/-- Modelled from the spec: the scheduler dispatch loop of section 4.2 as a
transition relation driven by the single sequential coordinator.  The graph
is given by the step list (each step carries its dependency names).  The
missing source method _execute_steps_parallel is a stub, so this relation
is built from the spec text alone:
rule 1 gives markReady (every dependency Completed) and skipOnDep (some
dependency ended Failed, Skipped or Cancelled, covering the transitive skip
cascade); section 4.3 gives skipOnCond (a present condition evaluating
false); rule 2 gives dispatch, blocked once the run is halted; section 4.3
retries give toRetrying and retryDispatch; completeStep and failStep close
a running step; failCritical (rule 4) records the failure, cancels every
Pending or Ready step and halts further dispatching, while already running
steps are only stopped cooperatively and still reach their own terminal
state. -/
inductive SchedStep (steps : List ProcessStep) : SchedState → SchedState → Prop where
  | markReady (s : SchedState) (st : ProcessStep)
      (hmem : st ∈ steps)
      (hp : s.status st.name = .pending)
      (hdeps : ∀ v ∈ st.dependencies, s.status v = .completed) :
      SchedStep steps s (setStatus s st.name .ready)
  | skipOnDep (s : SchedState) (st : ProcessStep) (v : String)
      (hmem : st ∈ steps)
      (hp : s.status st.name = .pending ∨ s.status st.name = .ready)
      (hv : v ∈ st.dependencies)
      (hbad : s.status v = .failed ∨ s.status v = .skipped ∨ s.status v = .cancelled) :
      SchedStep steps s (setStatus s st.name .skipped)
  | skipOnCond (s : SchedState) (st : ProcessStep)
      (hmem : st ∈ steps)
      (hcond : st.condition.isSome)
      (hr : s.status st.name = .ready) :
      SchedStep steps s (setStatus s st.name .skipped)
  | dispatch (s : SchedState) (st : ProcessStep)
      (hmem : st ∈ steps)
      (hr : s.status st.name = .ready)
      (hh : s.halted = false) :
      SchedStep steps s (setStatus s st.name .running)
  | toRetrying (s : SchedState) (st : ProcessStep)
      (hmem : st ∈ steps)
      (hr : s.status st.name = .running) :
      SchedStep steps s (setStatus s st.name .retrying)
  | retryDispatch (s : SchedState) (st : ProcessStep)
      (hmem : st ∈ steps)
      (hr : s.status st.name = .retrying) :
      SchedStep steps s (setStatus s st.name .running)
  | completeStep (s : SchedState) (st : ProcessStep)
      (hmem : st ∈ steps)
      (hr : s.status st.name = .running) :
      SchedStep steps s (setStatus s st.name .completed)
  | failStep (s : SchedState) (st : ProcessStep)
      (hmem : st ∈ steps)
      (hcrit : st.critical = false)
      (hr : s.status st.name = .running) :
      SchedStep steps s (setStatus s st.name .failed)
  | failCritical (s : SchedState) (st : ProcessStep)
      (hmem : st ∈ steps)
      (hcrit : st.critical = true)
      (hr : s.status st.name = .running) :
      SchedStep steps s ⟨cancelPendingReady (setStatus s st.name .failed).status, true⟩

/-- A run begins with every step Pending and the coordinator not halted
(spec section 3, StepExecutionState creation). -/
def initState : SchedState :=
  ⟨fun _ => .pending, false⟩

/-- The states one run of the scheduler can reach from its initial state. -/
def Reached (steps : List ProcessStep) (s : SchedState) : Prop :=
  Relation.ReflTransGen (SchedStep steps) initState s

/-- Every step of the run has reached a terminal state: the run has ended
(spec section 4.2 rule 6). -/
def AllTerminal (steps : List ProcessStep) (s : SchedState) : Prop :=
  ∀ st ∈ steps, TerminalStatus (s.status st.name)

instance (steps : List ProcessStep) (s : SchedState) : Decidable (AllTerminal steps s) := by
  unfold AllTerminal; infer_instance

/-- A step has been taken past Pending toward execution: Ready or any later
status a dispatched step passes through.  Skipped and Cancelled are the two
statuses a step can end in without its dependencies all Completed. -/
def DispatchedStatus (st : StepStatus) : Prop :=
  st = .ready ∨ st = .running ∨ st = .retrying ∨ st = .completed ∨ st = .failed

/-- The central dependency invariant: every step taken past Pending has all
of its dependencies Completed. -/
def DepsCompleted (steps : List ProcessStep) (s : SchedState) : Prop :=
  ∀ st ∈ steps, DispatchedStatus (s.status st.name) →
    ∀ v ∈ st.dependencies, s.status v = .completed

/-- The spec boolean results view handed to the report (section 4.4 and the
Dict[str, bool] contract of the stubbed _execute_steps_parallel):
results[stepName] = (status == Completed). -/
def reportResults (steps : List ProcessStep) (s : SchedState) : List (String × Bool) :=
  steps.map fun st => (st.name, s.status st.name == StepStatus.completed)

/-- No step of the run ended Failed or Cancelled. -/
def NoFailedOrCancelled (steps : List ProcessStep) (s : SchedState) : Prop :=
  ∀ st ∈ steps, s.status st.name ≠ .failed ∧ s.status st.name ≠ .cancelled

instance (steps : List ProcessStep) (s : SchedState) :
    Decidable (NoFailedOrCancelled steps s) := by
  unfold NoFailedOrCancelled; infer_instance

/-- Modelled from the spec: the collaborator outcome of one dispatched
command attempt (section 6): success, a non-zero exit, or hitting the
per-attempt timeout. -/
inductive AttemptOutcome where
  | success
  | failure
  | timeout
deriving DecidableEq

/-- Rewrites a timeout outcome into a plain failed attempt; the spec says a
timeout is treated identically to a non-zero exit. -/
def coerceTimeout : AttemptOutcome → AttemptOutcome
  | .timeout => .failure
  | o => o

/-- Modelled from the spec: the attempt loop of section 4.3.  outcome i is
the collaborator result of attempt number i; tmo is the per-attempt bound
passed to every collaborator invocation; the second component logs the
timeout argument of each invocation made, in order.  Called with
retry_count + 1 remaining attempts (one initial attempt plus the retries). -/
def attempt_loop (outcome : Nat → AttemptOutcome) (tmo : Nat) :
    Nat → Nat → StepStatus × List Nat
  | 0, _ => (.failed, [])
  | remaining + 1, i =>
    match outcome i with
    | .success => (.completed, [tmo])
    | _ =>
      let r := attempt_loop outcome tmo remaining (i + 1)
      (r.1, tmo :: r.2)

/-- Modelled from the spec: execute(step, context) of section 4.3 — when a
condition is present and evaluates false the step is Skipped without any
command invocation; otherwise the attempt loop runs attempts
0 .. retry_count inclusive.  evalCond abstracts the closed predicate
vocabulary evaluated against prior step results. -/
def run_step (evalCond : String → Bool) (outcome : Nat → AttemptOutcome)
    (step : ProcessStep) : StepStatus × List Nat :=
  match step.condition with
  | some c =>
    if evalCond c then attempt_loop outcome step.timeout (step.retry_count + 1) 0
    else (.skipped, [])
  | none => attempt_loop outcome step.timeout (step.retry_count + 1) 0

/-- Modelled from the spec: the structural validation errors of sections
4.1 and 7; the cyclic error names the cycle found. -/
inductive BuildError where
  | duplicateStep
  | unknownDependency
  | cyclicDependency (cycle : List String)
deriving DecidableEq

/-- Direct dependency lookup over the declared steps: the dependency names
of the step with the given name (unknown names have none). -/
def depFun (steps : List ProcessStep) : String → List String :=
  fun n =>
    match steps.find? (fun st => st.name == n) with
    | some st => st.dependencies
    | none => []

/-- The colour state of the three-colour depth-first traversal: black is
the done list in finishing order, grey the in-progress stack; a name on
neither list is unvisited (white). -/
structure DfsState where
  black : List String
  grey : List String

mutual

/-- Modelled from the spec: one visit of the three-colour depth-first cycle
detection of section 4.1.  A done (black) node returns at once; an
in-progress (grey) node is a back edge and yields the cycle found; an
unvisited node is marked in-progress, its dependencies are traversed, and
it is then appended to the done list.  fuel bounds the recursion depth (the
grey stack never exceeds the number of nodes, so node count + 1 suffices);
exhausted fuel is reported as a cycle, and no theorem below relies on that
branch. -/
def dfsVisit (dep : String → List String) (fuel : Nat) (u : String)
    (s : DfsState) : Except (List String) DfsState :=
  match fuel with
  | 0 => .error [u]
  | fuel + 1 =>
    if u ∈ s.black then .ok s
    else if u ∈ s.grey then .error (u :: s.grey)
    else
      match dfsList dep fuel (dep u) ⟨s.black, u :: s.grey⟩ with
      | .error c => .error c
      | .ok s2 => .ok ⟨s2.black ++ [u], s.grey⟩
termination_by (fuel, 0)

/-- Traverses a list of nodes in order with dfsVisit, threading the colour
state. -/
def dfsList (dep : String → List String) (fuel : Nat) (vs : List String)
    (s : DfsState) : Except (List String) DfsState :=
  match vs with
  | [] => .ok s
  | v :: rest =>
    match dfsVisit dep fuel v s with
    | .error c => .error c
    | .ok s2 => dfsList dep fuel rest s2
termination_by (fuel, vs.length + 1)

end

/-- Runs the three-colour traversal from every declared node and returns
the finishing order. -/
def dfsAll (dep : String → List String) (fuel : Nat) (names : List String) :
    Except (List String) (List String) :=
  match dfsList dep fuel names ⟨[], []⟩ with
  | .error c => .error c
  | .ok s => .ok s.black

/-- The adjacency structure the graph builder returns on success (spec
section 4.1): the validated steps, direct dependencies, direct dependents
(reverse edges) and a dependency-respecting finishing order. -/
structure ExecGraph where
  steps : List ProcessStep
  dep : String → List String
  dependents : String → List String
  order : List String

/-- Modelled from the spec: build(steps) of section 4.1 — reject duplicate
step names, then dependency names absent from the step set, then cycles via
the three-colour depth-first traversal; on success return the adjacency
structure. -/
def build_execution_plan (steps : List ProcessStep) : Except BuildError ExecGraph :=
  let names := steps.map (fun st => st.name)
  if (steps.map (fun st => st.name)).Nodup then
    if ∀ st ∈ steps, ∀ d ∈ st.dependencies, d ∈ names then
      match dfsAll (depFun steps) (names.length + 1) names with
      | .error c => .error (.cyclicDependency c)
      | .ok order =>
        .ok ⟨steps, depFun steps,
          fun n => (steps.filter (fun st => st.dependencies.contains n)).map
            (fun st => st.name),
          order⟩
    else .error .unknownDependency
  else .error .duplicateStep

/-- Modelled from the spec: structural validation happens before any step
executes; the scheduler (abstracted as sched) consumes the built graph only
on success, and a structural error yields no step execution state at all. -/
def run_process (sched : ExecGraph → List (String × StepStatus))
    (steps : List ProcessStep) : Except BuildError (List (String × StepStatus)) :=
  match build_execution_plan steps with
  | .error e => .error e
  | .ok g => .ok (sched g)

/-- A dependency path of one or more edges: DepPath dep u v means v is
reachable from u by following dependency edges. -/
inductive DepPath (dep : String → List String) : String → String → Prop where
  | single {u v : String} : v ∈ dep u → DepPath dep u v
  | cons {u v w : String} : v ∈ dep u → DepPath dep v w → DepPath dep u w

/-- A dependency cycle among the declared step names. -/
def HasCycle (steps : List ProcessStep) : Prop :=
  ∃ u, u ∈ steps.map (fun st => st.name) ∧ DepPath (depFun steps) u u

/-- A list built left to right by appending nodes all of whose dependencies
already occur earlier in the list: the shape of the finishing order the
traversal produces, witnessing acyclicity. -/
inductive LayeredList (dep : String → List String) : List String → Prop where
  | nil : LayeredList dep []
  | snoc {L : List String} {u : String} : LayeredList dep L →
      (∀ v ∈ dep u, v ∈ L) → u ∉ L → LayeredList dep (L ++ [u])

/-- A non-critical step with no dependencies, used in concrete runs. -/
def stepA1 : ProcessStep := ⟨"A", "cmdA", [], 30, 0, 0, false, [], none⟩

/-- A non-critical step depending on step A, used in concrete runs. -/
def stepB1 : ProcessStep := ⟨"B", "cmdB", ["A"], 30, 0, 0, false, [], none⟩

/-- Run 1: a two-step chain whose first step fails non-critically. -/
def steps1 : List ProcessStep := [stepA1, stepB1]

/-- Run 1 after step A became Ready. -/
def s1a : SchedState := setStatus initState "A" .ready

/-- Run 1 after step A was dispatched. -/
def s1b : SchedState := setStatus s1a "A" .running

/-- Run 1 after step A failed (retries exhausted, non-critical). -/
def s1c : SchedState := setStatus s1b "A" .failed

/-- Run 1 after the skip cascade reached step B: the run has ended. -/
def s1d : SchedState := setStatus s1c "B" .skipped

/-- A critical step with no dependencies, used in concrete runs. -/
def stepA2 : ProcessStep := ⟨"A", "cmdA", [], 30, 0, 0, true, [], none⟩

/-- Run 2: step B depends on the critical step A, which fails. -/
def steps2 : List ProcessStep := [stepA2, stepB1]

/-- Run 2 after step A became Ready. -/
def s2a : SchedState := setStatus initState "A" .ready

/-- Run 2 after step A was dispatched. -/
def s2b : SchedState := setStatus s2a "A" .running

/-- Run 2 after the critical failure of A: the still Pending step B is
Cancelled and the run is halted. -/
def s2c : SchedState := ⟨cancelPendingReady (setStatus s2b "A" .failed).status, true⟩

/-- A non-critical step with no dependencies, named B, used in run 3. -/
def stepB3 : ProcessStep := ⟨"B", "cmdB", [], 30, 0, 0, false, [], none⟩

/-- Run 3: two independent steps, A critical and failing while B is
in flight. -/
def steps3 : List ProcessStep := [stepA2, stepB3]

/-- Run 3 after step A became Ready. -/
def s3a : SchedState := setStatus initState "A" .ready

/-- Run 3 after step B became Ready. -/
def s3b : SchedState := setStatus s3a "B" .ready

/-- Run 3 after step A was dispatched. -/
def s3c : SchedState := setStatus s3b "A" .running

/-- Run 3 after step B was dispatched: both steps are in flight. -/
def s3d : SchedState := setStatus s3c "B" .running

/-- Run 3 after the critical failure of A while B is still Running: B is
not Cancelled (only cooperative stop is requested) and the run is halted. -/
def s3e : SchedState := ⟨cancelPendingReady (setStatus s3d "A" .failed).status, true⟩

/-- Run 3 after the in-flight step B finished on its own: the run has
ended with B Completed despite the earlier critical failure. -/
def s3f : SchedState := setStatus s3e "B" .completed

/-- An artificial halted state with A Running and B Ready, exercising the
no-new-dispatch rule on a concrete transition. -/
def sArt : SchedState :=
  ⟨fun w => if w = "A" then .running else if w = "B" then .ready else .pending, true⟩

/-- The artificial halted state after the in-flight step A completed. -/
def sArtDone : SchedState := setStatus sArt "A" .completed

/-- A step guarded by a condition, used in run 4. -/
def stepA4 : ProcessStep := ⟨"A", "cmdA", [], 30, 0, 0, false, [], some "step X failed"⟩

/-- Run 4: one conditional step, legitimately Skipped by a false
condition. -/
def steps4 : List ProcessStep := [stepA4]

/-- Run 4 after step A became Ready. -/
def s4a : SchedState := setStatus initState "A" .ready

/-- Run 4 after the condition of step A evaluated false: the run has ended
with A Skipped and nothing Failed or Cancelled. -/
def s4b : SchedState := setStatus s4a "A" .skipped

theorem name_inj {steps : List ProcessStep}
    (hnd : (steps.map (fun st => st.name)).Nodup)
    {a b : ProcessStep} (ha : a ∈ steps) (hb : b ∈ steps)
    (hab : a.name = b.name) : a = b :=
  List.inj_on_of_nodup_map hnd ha hb hab

theorem completed_frozen {steps : List ProcessStep} {s s2 : SchedState}
    (h : SchedStep steps s s2) {v : String}
    (hv : s.status v = .completed) : s2.status v = .completed := by
  have keep : ∀ (u : String) (x : StepStatus), s.status u ≠ .completed →
      (setStatus s u x).status v = .completed := by
    intro u x hu
    show (if v = u then x else s.status v) = .completed
    rcases eq_or_ne v u with he | he
    · exact absurd (he ▸ hv) hu
    · rw [if_neg he]; exact hv
  cases h with
  | markReady st hmem hp hdeps => exact keep _ _ (by rw [hp]; decide)
  | skipOnDep st w hmem hp hw hbad =>
    exact keep _ _ (by rcases hp with hp | hp <;> rw [hp] <;> decide)
  | skipOnCond st hmem hcond hr => exact keep _ _ (by rw [hr]; decide)
  | dispatch st hmem hr hh => exact keep _ _ (by rw [hr]; decide)
  | toRetrying st hmem hr => exact keep _ _ (by rw [hr]; decide)
  | retryDispatch st hmem hr => exact keep _ _ (by rw [hr]; decide)
  | completeStep st hmem hr => exact keep _ _ (by rw [hr]; decide)
  | failStep st hmem hcrit hr => exact keep _ _ (by rw [hr]; decide)
  | failCritical st hmem hcrit hr =>
    have h1 : (setStatus s st.name .failed).status v = .completed :=
      keep _ _ (by rw [hr]; decide)
    show cancelPendingReady (setStatus s st.name .failed).status v = .completed
    unfold cancelPendingReady
    rw [h1, if_neg (by decide)]

theorem deps_completed_preserved {steps : List ProcessStep}
    (hnd : (steps.map (fun st => st.name)).Nodup) {s s2 : SchedState}
    (h : SchedStep steps s s2) (hI : DepsCompleted steps s) :
    DepsCompleted steps s2 := by
  have lift : ∀ {v : String}, s.status v = .completed → s2.status v = .completed :=
    fun hv => completed_frozen h hv
  intro st hst hdisp v hv
  cases h with
  | markReady st0 hmem hp hdeps =>
    apply lift
    rcases eq_or_ne st.name st0.name with hn | hn
    · have hst0 : st = st0 := name_inj hnd hst hmem hn
      subst hst0
      exact hdeps v hv
    · have he : (setStatus s st0.name .ready).status st.name = s.status st.name := by
        show (if st.name = st0.name then _ else _) = _
        rw [if_neg hn]
      rw [he] at hdisp
      exact hI st hst hdisp v hv
  | skipOnDep st0 w hmem hp hw hbad =>
    apply lift
    rcases eq_or_ne st.name st0.name with hn | hn
    · have he : (setStatus s st0.name .skipped).status st.name = .skipped := by
        show (if st.name = st0.name then _ else _) = _
        rw [if_pos hn]
      rw [he] at hdisp
      simp [DispatchedStatus] at hdisp
    · have he : (setStatus s st0.name .skipped).status st.name = s.status st.name := by
        show (if st.name = st0.name then _ else _) = _
        rw [if_neg hn]
      rw [he] at hdisp
      exact hI st hst hdisp v hv
  | skipOnCond st0 hmem hcond hr =>
    apply lift
    rcases eq_or_ne st.name st0.name with hn | hn
    · have he : (setStatus s st0.name .skipped).status st.name = .skipped := by
        show (if st.name = st0.name then _ else _) = _
        rw [if_pos hn]
      rw [he] at hdisp
      simp [DispatchedStatus] at hdisp
    · have he : (setStatus s st0.name .skipped).status st.name = s.status st.name := by
        show (if st.name = st0.name then _ else _) = _
        rw [if_neg hn]
      rw [he] at hdisp
      exact hI st hst hdisp v hv
  | dispatch st0 hmem hr hh =>
    apply lift
    rcases eq_or_ne st.name st0.name with hn | hn
    · have hst0 : st = st0 := name_inj hnd hst hmem hn
      subst hst0
      exact hI st hst (Or.inl hr) v hv
    · have he : (setStatus s st0.name .running).status st.name = s.status st.name := by
        show (if st.name = st0.name then _ else _) = _
        rw [if_neg hn]
      rw [he] at hdisp
      exact hI st hst hdisp v hv
  | toRetrying st0 hmem hr =>
    apply lift
    rcases eq_or_ne st.name st0.name with hn | hn
    · have hst0 : st = st0 := name_inj hnd hst hmem hn
      subst hst0
      exact hI st hst (Or.inr (Or.inl hr)) v hv
    · have he : (setStatus s st0.name .retrying).status st.name = s.status st.name := by
        show (if st.name = st0.name then _ else _) = _
        rw [if_neg hn]
      rw [he] at hdisp
      exact hI st hst hdisp v hv
  | retryDispatch st0 hmem hr =>
    apply lift
    rcases eq_or_ne st.name st0.name with hn | hn
    · have hst0 : st = st0 := name_inj hnd hst hmem hn
      subst hst0
      exact hI st hst (Or.inr (Or.inr (Or.inl hr))) v hv
    · have he : (setStatus s st0.name .running).status st.name = s.status st.name := by
        show (if st.name = st0.name then _ else _) = _
        rw [if_neg hn]
      rw [he] at hdisp
      exact hI st hst hdisp v hv
  | completeStep st0 hmem hr =>
    apply lift
    rcases eq_or_ne st.name st0.name with hn | hn
    · have hst0 : st = st0 := name_inj hnd hst hmem hn
      subst hst0
      exact hI st hst (Or.inr (Or.inl hr)) v hv
    · have he : (setStatus s st0.name .completed).status st.name = s.status st.name := by
        show (if st.name = st0.name then _ else _) = _
        rw [if_neg hn]
      rw [he] at hdisp
      exact hI st hst hdisp v hv
  | failStep st0 hmem hcrit hr =>
    apply lift
    rcases eq_or_ne st.name st0.name with hn | hn
    · have hst0 : st = st0 := name_inj hnd hst hmem hn
      subst hst0
      exact hI st hst (Or.inr (Or.inl hr)) v hv
    · have he : (setStatus s st0.name .failed).status st.name = s.status st.name := by
        show (if st.name = st0.name then _ else _) = _
        rw [if_neg hn]
      rw [he] at hdisp
      exact hI st hst hdisp v hv
  | failCritical st0 hmem hcrit hr =>
    apply lift
    by_cases hc : (setStatus s st0.name .failed).status st.name = .pending ∨
        (setStatus s st0.name .failed).status st.name = .ready
    · have he : (⟨cancelPendingReady (setStatus s st0.name .failed).status, true⟩ :
          SchedState).status st.name = .cancelled := by
        show cancelPendingReady _ st.name = _
        unfold cancelPendingReady
        rw [if_pos hc]
      rw [he] at hdisp
      simp [DispatchedStatus] at hdisp
    · have he : (⟨cancelPendingReady (setStatus s st0.name .failed).status, true⟩ :
          SchedState).status st.name = (setStatus s st0.name .failed).status st.name := by
        show cancelPendingReady _ st.name = _
        unfold cancelPendingReady
        rw [if_neg hc]
      rw [he] at hdisp
      rcases eq_or_ne st.name st0.name with hn | hn
      · have hst0 : st = st0 := name_inj hnd hst hmem hn
        subst hst0
        exact hI st hst (Or.inr (Or.inl hr)) v hv
      · have he2 : (setStatus s st0.name .failed).status st.name = s.status st.name := by
          show (if st.name = st0.name then _ else _) = _
          rw [if_neg hn]
        rw [he2] at hdisp
        exact hI st hst hdisp v hv

theorem reached_deps_completed {steps : List ProcessStep}
    (hnd : (steps.map (fun st => st.name)).Nodup) {s : SchedState}
    (h : Reached steps s) : DepsCompleted steps s := by
  have h2 : Relation.ReflTransGen (SchedStep steps) initState s := h
  clear h
  induction h2 with
  | refl =>
    intro st hst hdisp
    simp [DispatchedStatus, initState] at hdisp
  | tail hR hstep ih => exact deps_completed_preserved hnd hstep ih

theorem reached_s1d : Reached steps1 s1d := by
  have h1 : SchedStep steps1 initState s1a :=
    SchedStep.markReady initState stepA1 (by decide) rfl (by decide)
  have h2 : SchedStep steps1 s1a s1b :=
    SchedStep.dispatch s1a stepA1 (by decide) (by decide) rfl
  have h3 : SchedStep steps1 s1b s1c :=
    SchedStep.failStep s1b stepA1 (by decide) rfl (by decide)
  have h4 : SchedStep steps1 s1c s1d :=
    SchedStep.skipOnDep s1c stepB1 "A" (by decide) (Or.inl (by decide)) (by decide)
      (Or.inl (by decide))
  exact Relation.ReflTransGen.tail
    (Relation.ReflTransGen.tail
      (Relation.ReflTransGen.tail
        (Relation.ReflTransGen.tail Relation.ReflTransGen.refl h1) h2) h3) h4

theorem reached_s2b : Reached steps2 s2b := by
  have h1 : SchedStep steps2 initState s2a :=
    SchedStep.markReady initState stepA2 (by decide) rfl (by decide)
  have h2 : SchedStep steps2 s2a s2b :=
    SchedStep.dispatch s2a stepA2 (by decide) (by decide) rfl
  exact Relation.ReflTransGen.tail
    (Relation.ReflTransGen.tail Relation.ReflTransGen.refl h1) h2

theorem sched_step_s2b_s2c : SchedStep steps2 s2b s2c :=
  SchedStep.failCritical s2b stepA2 (by decide) rfl (by decide)

theorem reached_s2c : Reached steps2 s2c :=
  Relation.ReflTransGen.tail reached_s2b sched_step_s2b_s2c

theorem reached_s3d : Reached steps3 s3d := by
  have h1 : SchedStep steps3 initState s3a :=
    SchedStep.markReady initState stepA2 (by decide) rfl (by decide)
  have h2 : SchedStep steps3 s3a s3b :=
    SchedStep.markReady s3a stepB3 (by decide) (by decide) (by decide)
  have h3 : SchedStep steps3 s3b s3c :=
    SchedStep.dispatch s3b stepA2 (by decide) (by decide) rfl
  have h4 : SchedStep steps3 s3c s3d :=
    SchedStep.dispatch s3c stepB3 (by decide) (by decide) rfl
  exact Relation.ReflTransGen.tail
    (Relation.ReflTransGen.tail
      (Relation.ReflTransGen.tail
        (Relation.ReflTransGen.tail Relation.ReflTransGen.refl h1) h2) h3) h4

theorem sched_step_s3d_s3e : SchedStep steps3 s3d s3e :=
  SchedStep.failCritical s3d stepA2 (by decide) rfl (by decide)

theorem sched_step_s3e_s3f : SchedStep steps3 s3e s3f :=
  SchedStep.completeStep s3e stepB3 (by decide) (by decide)

theorem reached_s4b : Reached steps4 s4b := by
  have h1 : SchedStep steps4 initState s4a :=
    SchedStep.markReady initState stepA4 (by decide) rfl (by decide)
  have h2 : SchedStep steps4 s4a s4b :=
    SchedStep.skipOnCond s4a stepA4 (by decide) rfl (by decide)
  exact Relation.ReflTransGen.tail
    (Relation.ReflTransGen.tail Relation.ReflTransGen.refl h1) h2

/-- Claim C1 (amended): in every run of the scheduler a step is Running (or
Completed) only when every one of its dependencies has reached Completed,
so a dependency that ended Failed, Skipped or Cancelled never satisfies a
dependent; in a completed run such a dependent ends Skipped or Cancelled
(Cancelled when the cancellation of a critical failure reached it first,
rather than always Skipped as the claim stated). -/
theorem scheduler_dependency_gate (steps : List ProcessStep) (s : SchedState)
    (hnd : (steps.map (fun st => st.name)).Nodup)
    (hre : Reached steps s) :
    (∀ st ∈ steps, (s.status st.name = .running ∨ s.status st.name = .completed) →
      ∀ v ∈ st.dependencies, s.status v = .completed) ∧
    (∀ st ∈ steps, AllTerminal steps s →
      (∃ v ∈ st.dependencies,
        s.status v = .failed ∨ s.status v = .skipped ∨ s.status v = .cancelled) →
      (s.status st.name = .skipped ∨ s.status st.name = .cancelled)) := by
  have hI := reached_deps_completed hnd hre
  constructor
  · intro st hst hrc v hv
    apply hI st hst _ v hv
    rcases hrc with h | h
    · exact Or.inr (Or.inl h)
    · exact Or.inr (Or.inr (Or.inr (Or.inl h)))
  · intro st hst hterm hbad
    obtain ⟨v, hv, hb⟩ := hbad
    rcases hterm st hst with hc | hf | hs | hca
    · have hvc := hI st hst (Or.inr (Or.inr (Or.inr (Or.inl hc)))) v hv
      rcases hb with hb | hb | hb <;> rw [hvc] at hb <;> cases hb
    · have hvc := hI st hst (Or.inr (Or.inr (Or.inr (Or.inr hf)))) v hv
      rcases hb with hb | hb | hb <;> rw [hvc] at hb <;> cases hb
    · exact Or.inl hs
    · exact Or.inr hca

/-- Witness for claim C1 at a concrete completed run: step A fails
non-critically and its dependent B ends Skipped. -/
theorem scheduler_dependency_gate_witness :
    s1d.status "B" = StepStatus.skipped ∨ s1d.status "B" = StepStatus.cancelled :=
  (scheduler_dependency_gate steps1 s1d (by decide) reached_s1d).2 stepB1
    (by decide) (by decide) ⟨"A", by decide, Or.inl (by decide)⟩

/-- Counterexample to claim C1 as stated: in a completed run of two steps
where the critical step A fails, its dependent B is Cancelled by the blast
radius rule, never Skipped, although its dependency ended Failed. -/
theorem dependency_skip_counterexample :
    Reached steps2 s2c ∧ AllTerminal steps2 s2c ∧
    stepB1.dependencies = ["A"] ∧ s2c.status "A" = StepStatus.failed ∧
    s2c.status "B" = StepStatus.cancelled ∧ s2c.status "B" ≠ StepStatus.skipped :=
  ⟨reached_s2c, by decide, rfl, by decide, by decide, by decide⟩

/-- Claim C2 (amended): the overall boolean outcome of a run is true exactly
when every step ended Completed; a step Skipped legitimately by a false
condition (no Failed or Cancelled step anywhere) still makes the outcome
false, because results[stepName] = (status == Completed) and the outcome is
the conjunction of those booleans. -/
theorem overall_outcome_iff_all_completed (steps : List ProcessStep) (s : SchedState) :
    overall_outcome (reportResults steps s) = true ↔
      ∀ st ∈ steps, s.status st.name = StepStatus.completed := by
  simp [overall_outcome, reportResults, List.all_eq_true]

/-- Counterexample to claim C2 as stated: a completed run whose only step
was legitimately Skipped by a false condition has no Failed and no
Cancelled step, yet the overall outcome is false. -/
theorem outcome_skip_counterexample :
    Reached steps4 s4b ∧ AllTerminal steps4 s4b ∧
    NoFailedOrCancelled steps4 s4b ∧
    s4b.status "A" = StepStatus.skipped ∧
    overall_outcome (reportResults steps4 s4b) = false :=
  ⟨reached_s4b, by decide, by decide, by decide, by decide⟩

/-- Claim C6 (amended): a transition that raises the halted flag is the
critical-failure transition and it marks every step still Pending or Ready
as Cancelled; after the flag is raised no step moves from Ready to Running
(no new dispatch) and the flag stays raised; a step already Running at the
failure is not Cancelled by it (it is only asked to stop cooperatively),
rather than every not-yet-terminal step becoming Cancelled as the claim
stated. -/
theorem critical_failure_blast (steps : List ProcessStep) (s s2 : SchedState)
    (h : SchedStep steps s s2) :
    (s.halted = false → s2.halted = true →
      ∀ w, (s.status w = .pending ∨ s.status w = .ready) →
        s2.status w = .cancelled) ∧
    (s.halted = true → ∀ w, s.status w = .ready → s2.status w ≠ .running) ∧
    (s.halted = true → s2.halted = true) := by
  cases h with
  | markReady st hmem hp hdeps =>
    refine ⟨fun h0 h1 => absurd (h0 ▸ h1) (by decide), fun h0 w hw => ?_, fun h0 => h0⟩
    show (if w = st.name then StepStatus.ready else s.status w) ≠ .running
    rcases eq_or_ne w st.name with he | he
    · rw [if_pos he]; decide
    · rw [if_neg he, hw]; decide
  | skipOnDep st v hmem hp hv hbad =>
    refine ⟨fun h0 h1 => absurd (h0 ▸ h1) (by decide), fun h0 w hw => ?_, fun h0 => h0⟩
    show (if w = st.name then StepStatus.skipped else s.status w) ≠ .running
    rcases eq_or_ne w st.name with he | he
    · rw [if_pos he]; decide
    · rw [if_neg he, hw]; decide
  | skipOnCond st hmem hcond hr =>
    refine ⟨fun h0 h1 => absurd (h0 ▸ h1) (by decide), fun h0 w hw => ?_, fun h0 => h0⟩
    show (if w = st.name then StepStatus.skipped else s.status w) ≠ .running
    rcases eq_or_ne w st.name with he | he
    · rw [if_pos he]; decide
    · rw [if_neg he, hw]; decide
  | dispatch st hmem hr hh =>
    refine ⟨fun h0 h1 => absurd (h0 ▸ h1) (by decide),
      fun h0 => absurd (h0 ▸ hh) (by decide), fun h0 => h0⟩
  | toRetrying st hmem hr =>
    refine ⟨fun h0 h1 => absurd (h0 ▸ h1) (by decide), fun h0 w hw => ?_, fun h0 => h0⟩
    show (if w = st.name then StepStatus.retrying else s.status w) ≠ .running
    rcases eq_or_ne w st.name with he | he
    · rw [if_pos he]; decide
    · rw [if_neg he, hw]; decide
  | retryDispatch st hmem hr =>
    refine ⟨fun h0 h1 => absurd (h0 ▸ h1) (by decide), fun h0 w hw => ?_, fun h0 => h0⟩
    show (if w = st.name then StepStatus.running else s.status w) ≠ .running
    rcases eq_or_ne w st.name with he | he
    · rw [he] at hw; rw [hw] at hr; cases hr
    · rw [if_neg he, hw]; decide
  | completeStep st hmem hr =>
    refine ⟨fun h0 h1 => absurd (h0 ▸ h1) (by decide), fun h0 w hw => ?_, fun h0 => h0⟩
    show (if w = st.name then StepStatus.completed else s.status w) ≠ .running
    rcases eq_or_ne w st.name with he | he
    · rw [if_pos he]; decide
    · rw [if_neg he, hw]; decide
  | failStep st hmem hcrit hr =>
    refine ⟨fun h0 h1 => absurd (h0 ▸ h1) (by decide), fun h0 w hw => ?_, fun h0 => h0⟩
    show (if w = st.name then StepStatus.failed else s.status w) ≠ .running
    rcases eq_or_ne w st.name with he | he
    · rw [if_pos he]; decide
    · rw [if_neg he, hw]; decide
  | failCritical st hmem hcrit hr =>
    have hset : ∀ w, s.status w = .pending ∨ s.status w = .ready →
        (setStatus s st.name .failed).status w = s.status w := by
      intro w hw
      show (if w = st.name then StepStatus.failed else s.status w) = s.status w
      rcases eq_or_ne w st.name with he | he
      · rw [he] at hw; rcases hw with hw | hw <;> rw [hw] at hr <;> cases hr
      · rw [if_neg he]
    refine ⟨fun h0 h1 w hw => ?_, fun h0 w hw => ?_, fun h0 => rfl⟩
    · show cancelPendingReady (setStatus s st.name .failed).status w = .cancelled
      unfold cancelPendingReady
      rw [hset w hw, if_pos hw]
    · show cancelPendingReady (setStatus s st.name .failed).status w ≠ .running
      unfold cancelPendingReady
      rw [hset w (Or.inr hw), if_pos (Or.inr hw)]
      decide

/-- Witness for claim C6 at concrete transitions: the critical failure of A
cancels the still Pending step B; from a halted state with B Ready, the
completion of an in-flight step leaves B not Running and the flag raised. -/
theorem critical_failure_blast_witness :
    s2c.status "B" = StepStatus.cancelled ∧
    sArtDone.status "B" ≠ StepStatus.running ∧ sArtDone.halted = true := by
  have h1 := critical_failure_blast steps2 s2b s2c sched_step_s2b_s2c
  have h2 := critical_failure_blast steps3 sArt sArtDone
    (SchedStep.completeStep sArt stepA2 (by decide) (by decide))
  exact ⟨h1.1 rfl rfl "B" (Or.inl (by decide)),
    h2.2.1 rfl "B" (by decide), h2.2.2 rfl⟩

/-- Counterexample to claim C6 as stated: when the critical step A fails
while the independent step B is Running, B (not yet terminal at that
moment) is never marked Cancelled; it later reaches Completed on its own,
so not every not-yet-terminal step becomes Cancelled. -/
theorem critical_blast_counterexample :
    Reached steps3 s3d ∧ s3d.halted = false ∧
    SchedStep steps3 s3d s3e ∧ s3e.halted = true ∧
    s3e.status "B" = StepStatus.running ∧ ¬ TerminalStatus (s3e.status "B") ∧
    Relation.ReflTransGen (SchedStep steps3) s3e s3f ∧
    AllTerminal steps3 s3f ∧
    s3f.status "B" = StepStatus.completed ∧ s3f.status "B" ≠ StepStatus.cancelled :=
  ⟨reached_s3d, rfl, sched_step_s3d_s3e, rfl, by decide, by decide,
    Relation.ReflTransGen.tail Relation.ReflTransGen.refl sched_step_s3e_s3f,
    by decide, by decide, by decide⟩

/-- Claim C3: the command-line entry point exits with status 0 exactly when
the boolean outcome of the run is success and with status 1 otherwise, both
for the bare mapping of line 152 and composed with execute_process_chain as
in the main block. -/
theorem exit_code_outcome (r : Bool) (cfg : OrchestratorConfig) (pname : String)
    (ioOutcome : Except PyErr Unit) :
    (exit_code r = 0 ↔ r = true) ∧ (exit_code r = 1 ↔ r = false) ∧
    (main_exit cfg pname ioOutcome = 0 ↔
      execute_process_chain cfg pname ioOutcome = true) ∧
    (main_exit cfg pname ioOutcome = 1 ↔
      execute_process_chain cfg pname ioOutcome = false) := by
  refine ⟨?_, ?_, ?_, ?_⟩
  · cases r <;> simp [exit_code]
  · cases r <;> simp [exit_code]
  · unfold main_exit
    cases execute_process_chain cfg pname ioOutcome <;> simp [exit_code]
  · unfold main_exit
    cases execute_process_chain cfg pname ioOutcome <;> simp [exit_code]

/-- Claim C4: the report success rate is the number of Completed steps over
the total number of steps, is 0 for an empty step set, and lies in [0,1]. -/
theorem success_rate_in_range (steps : List ProcessStep) (s : SchedState) :
    (steps = [] → success_rate (reportResults steps s) = 0) ∧
    (steps ≠ [] → success_rate (reportResults steps s) =
      ((steps.filter (fun st => s.status st.name == StepStatus.completed)).length : ℚ) /
        (steps.length : ℚ)) ∧
    0 ≤ success_rate (reportResults steps s) ∧
    success_rate (reportResults steps s) ≤ 1 := by
  cases steps with
  | nil =>
    refine ⟨fun _ => rfl, fun hne => absurd rfl hne, ?_, ?_⟩
    · norm_num [success_rate, reportResults]
    · norm_num [success_rate, reportResults]
  | cons a l =>
    have hfilt : ((reportResults (a :: l) s).filter (fun r => r.2)).length =
        ((a :: l).filter (fun st => s.status st.name == StepStatus.completed)).length := by
      unfold reportResults
      rw [← List.countP_eq_length_filter, ← List.countP_eq_length_filter,
        List.countP_map]
      rfl
    have hlen : (reportResults (a :: l) s).length = (a :: l).length :=
      List.length_map _ _
    have hval : success_rate (reportResults (a :: l) s) =
        (((a :: l).filter (fun st => s.status st.name == StepStatus.completed)).length : ℚ) /
          ((a :: l).length : ℚ) := by
      unfold success_rate
      rw [if_neg (by simp [reportResults])]
      rw [hfilt, hlen]
    refine ⟨?_, ?_, ?_, ?_⟩
    · intro he; exact absurd he (List.cons_ne_nil a l)
    · intro _; exact hval
    · rw [hval]
      exact div_nonneg (Nat.cast_nonneg _) (Nat.cast_nonneg _)
    · rw [hval]
      rw [div_le_one (by exact_mod_cast Nat.succ_pos l.length)]
      exact_mod_cast List.length_filter_le _ _

/-- Claim C8 (amended): execute_process_chain never lets an exception reach
its caller, but the catch-all handler converts every internal error into
the boolean False, the very value an ordinary failed run returns, so an
internal error is not distinguishable from an ordinary failure. -/
theorem chain_result_conflates (e : PyErr) :
    chain_result (.error e) = false ∧
    chain_result (.error e) = chain_result (.ok false) ∧
    (∀ b, chain_result (.ok b) = b) :=
  ⟨rfl, rfl, fun _ => rfl⟩

/-- Counterexample to claim C8 as stated: an internal error surfaced to the
caller is exactly the same value as an ordinary failed outcome. -/
theorem internal_error_indistinguishable :
    chain_result (.error PyErr.attributeError) = chain_result (.ok false) := rfl

/-- Claim C9: with the two core methods stubbed to return None, every
invocation of execute_process_chain returns False (the catch-all converts
the AttributeError raised by all(None.values()), or any earlier exception,
into a boolean), so the command-line entry point always exits with 1. -/
theorem execute_process_chain_always_false (cfg : OrchestratorConfig)
    (pname : String) (ioOutcome : Except PyErr Unit) :
    execute_process_chain cfg pname ioOutcome = false ∧
    main_exit cfg pname ioOutcome = 1 := by
  have h : execute_process_chain cfg pname ioOutcome = false := by
    unfold execute_process_chain
    cases hl : lookup_process cfg pname with
    | error e => rfl
    | ok pd => cases ioOutcome <;> rfl
  refine ⟨h, ?_⟩
  unfold main_exit
  rw [h]
  rfl

theorem attempt_loop_length (outcome : Nat → AttemptOutcome) (tmo : Nat) :
    ∀ n i, (attempt_loop outcome tmo n i).2.length ≤ n := by
  intro n
  induction n with
  | zero => intro i; simp [attempt_loop]
  | succ n ih =>
    intro i
    cases ho : outcome i with
    | success => simp [attempt_loop, ho]
    | failure =>
      simp only [attempt_loop, ho, List.length_cons]
      exact Nat.succ_le_succ (ih (i + 1))
    | timeout =>
      simp only [attempt_loop, ho, List.length_cons]
      exact Nat.succ_le_succ (ih (i + 1))

theorem attempt_loop_timeout_args (outcome : Nat → AttemptOutcome) (tmo : Nat) :
    ∀ n i, ∀ t ∈ (attempt_loop outcome tmo n i).2, t = tmo := by
  intro n
  induction n with
  | zero => intro i t ht; simp [attempt_loop] at ht
  | succ n ih =>
    intro i t ht
    cases ho : outcome i with
    | success => simp [attempt_loop, ho] at ht; exact ht
    | failure =>
      simp only [attempt_loop, ho, List.mem_cons] at ht
      rcases ht with ht | ht
      · exact ht
      · exact ih (i + 1) t ht
    | timeout =>
      simp only [attempt_loop, ho, List.mem_cons] at ht
      rcases ht with ht | ht
      · exact ht
      · exact ih (i + 1) t ht

theorem attempt_loop_coerce (outcome : Nat → AttemptOutcome) (tmo : Nat) :
    ∀ n i, attempt_loop (fun j => coerceTimeout (outcome j)) tmo n i =
      attempt_loop outcome tmo n i := by
  intro n
  induction n with
  | zero => intro i; rfl
  | succ n ih =>
    intro i
    have hL : ∀ (g : Nat → AttemptOutcome),
        (g i = AttemptOutcome.failure ∨ g i = AttemptOutcome.timeout) →
        attempt_loop g tmo (n + 1) i =
          ((attempt_loop g tmo n (i + 1)).1, tmo :: (attempt_loop g tmo n (i + 1)).2) := by
      intro g hg
      rcases hg with hg | hg <;> simp [attempt_loop, hg]
    cases ho : outcome i with
    | success =>
      have h1 : (fun j => coerceTimeout (outcome j)) i = AttemptOutcome.success := by
        show coerceTimeout (outcome i) = _
        rw [ho]
        rfl
      simp [attempt_loop, ho, h1, coerceTimeout]
    | failure =>
      have h1 : (fun j => coerceTimeout (outcome j)) i = AttemptOutcome.failure := by
        show coerceTimeout (outcome i) = _
        rw [ho]
        rfl
      rw [hL _ (Or.inl h1), hL outcome (Or.inl ho), ih (i + 1)]
    | timeout =>
      have h1 : (fun j => coerceTimeout (outcome j)) i = AttemptOutcome.failure := by
        show coerceTimeout (outcome i) = _
        rw [ho]
        rfl
      rw [hL _ (Or.inl h1), hL outcome (Or.inr ho), ih (i + 1)]

/-- Claim C7: with retry_count = r the step runner makes at most r + 1
collaborator invocations, every invocation carries the step timeout as its
per-attempt bound, and a timeout outcome is handled exactly like a failed
attempt (rewriting every timeout into a failure changes nothing). -/
theorem run_step_bounded_attempts (evalCond : String → Bool)
    (outcome : Nat → AttemptOutcome) (step : ProcessStep) :
    (run_step evalCond outcome step).2.length ≤ step.retry_count + 1 ∧
    (∀ t ∈ (run_step evalCond outcome step).2, t = step.timeout) ∧
    run_step evalCond (fun j => coerceTimeout (outcome j)) step =
      run_step evalCond outcome step := by
  unfold run_step
  cases hc : step.condition with
  | none =>
    exact ⟨attempt_loop_length outcome step.timeout (step.retry_count + 1) 0,
      attempt_loop_timeout_args outcome step.timeout (step.retry_count + 1) 0,
      attempt_loop_coerce outcome step.timeout (step.retry_count + 1) 0⟩
  | some c =>
    by_cases he : evalCond c
    · simp only [he, if_true]
      exact ⟨attempt_loop_length outcome step.timeout (step.retry_count + 1) 0,
        attempt_loop_timeout_args outcome step.timeout (step.retry_count + 1) 0,
        attempt_loop_coerce outcome step.timeout (step.retry_count + 1) 0⟩
    · simp [he]

/-- Claim C10: a request to the obl-dev webhook endpoint whose signature
header is missing or differs from sha256= followed by the HMAC-SHA256 hex
digest of the raw payload is answered with HTTP 401 and no processing
routine is invoked; verify_signature is False for an absent signature. -/
theorem webhook_rejects_invalid_signature (hmacHexDigest : String → String)
    (parseJson : String → Except PyErr (Option String))
    (payload : String) (signature : Option String)
    (h : ∀ s, signature = some s → s ≠ "sha256=" ++ hmacHexDigest payload) :
    (handle_obl_webhook hmacHexDigest parseJson payload signature).1 = 401 ∧
    (handle_obl_webhook hmacHexDigest parseJson payload signature).2 = [] ∧
    verify_signature hmacHexDigest payload none = false := by
  have hv : verify_signature hmacHexDigest payload signature = false := by
    cases signature with
    | none => rfl
    | some sg =>
      show (if sg = "" then false
        else ("sha256=" ++ hmacHexDigest payload == sg)) = false
      by_cases he : sg = ""
      · rw [if_pos he]
      · rw [if_neg he]
        exact beq_eq_false_iff_ne.mpr fun heq => h sg rfl heq.symm
  refine ⟨?_, ?_, rfl⟩ <;> simp [handle_obl_webhook, hv]

/-- Witness for claim C10 at a concrete request: payload p with a wrong
signature header is answered 401 with no routine invoked. -/
theorem webhook_rejects_invalid_signature_witness :
    (handle_obl_webhook (fun _ => "ab") (fun _ => .ok none) "p" (some "bad")).1 = 401 ∧
    (handle_obl_webhook (fun _ => "ab") (fun _ => .ok none) "p" (some "bad")).2 = [] ∧
    verify_signature (fun _ => "ab") "p" none = false :=
  webhook_rejects_invalid_signature (fun _ => "ab") (fun _ => .ok none) "p"
    (some "bad") (by intro sg hs; injection hs with h1; rw [← h1]; decide)

theorem dfsList_nil (dep : String → List String) (fuel : Nat) (s : DfsState) :
    dfsList dep fuel [] s = .ok s := by
  rw [dfsList]

theorem dfsList_cons (dep : String → List String) (fuel : Nat) (v : String)
    (rest : List String) (s : DfsState) :
    dfsList dep fuel (v :: rest) s =
      match dfsVisit dep fuel v s with
      | .error c => .error c
      | .ok s2 => dfsList dep fuel rest s2 := by
  rw [dfsList]

theorem dfsVisit_zero (dep : String → List String) (u : String) (s : DfsState) :
    dfsVisit dep 0 u s = .error [u] := by
  rw [dfsVisit]

theorem dfsVisit_succ (dep : String → List String) (fuel : Nat) (u : String)
    (s : DfsState) :
    dfsVisit dep (fuel + 1) u s =
      if u ∈ s.black then .ok s
      else if u ∈ s.grey then .error (u :: s.grey)
      else
        match dfsList dep fuel (dep u) ⟨s.black, u :: s.grey⟩ with
        | .error c => .error c
        | .ok s2 => .ok ⟨s2.black ++ [u], s.grey⟩ := by
  rw [dfsVisit]

theorem dfsList_ok_inv (dep : String → List String) (fuel : Nat)
    (hv : ∀ u s s2, dfsVisit dep fuel u s = .ok s2 →
      (LayeredList dep s.black → LayeredList dep s2.black) ∧
      s2.grey = s.grey ∧
      (∃ t, s2.black = s.black ++ t) ∧
      u ∈ s2.black ∧
      (∀ w ∈ s.grey, w ∉ s.black → w ∉ s2.black)) :
    ∀ vs s s2, dfsList dep fuel vs s = .ok s2 →
      (LayeredList dep s.black → LayeredList dep s2.black) ∧
      s2.grey = s.grey ∧
      (∃ t, s2.black = s.black ++ t) ∧
      (∀ v ∈ vs, v ∈ s2.black) ∧
      (∀ w ∈ s.grey, w ∉ s.black → w ∉ s2.black) := by
  intro vs
  induction vs with
  | nil =>
    intro s s2 h
    rw [dfsList_nil] at h
    injection h with h
    subst h
    exact ⟨fun hl => hl, rfl, ⟨[], (List.append_nil _).symm⟩,
      fun v hv2 => absurd hv2 (List.not_mem_nil v), fun w hw hwb => hwb⟩
  | cons v rest ih =>
    intro s s2 h
    rw [dfsList_cons] at h
    cases hh : dfsVisit dep fuel v s with
    | error c => rw [hh] at h; cases h
    | ok s1 =>
      rw [hh] at h
      obtain ⟨L1, G1, ⟨t1, B1⟩, M1, N1⟩ := hv v s s1 hh
      obtain ⟨L2, G2, ⟨t2, B2⟩, M2, N2⟩ := ih s1 s2 h
      refine ⟨fun hl => L2 (L1 hl), G2.trans G1,
        ⟨t1 ++ t2, by rw [B2, B1, List.append_assoc]⟩, ?_, ?_⟩
      · intro x hx
        rcases List.mem_cons.mp hx with hx | hx
        · subst hx
          rw [B2]
          exact List.mem_append_left _ M1
        · exact M2 x hx
      · intro w hw hwb
        have hw1 : w ∈ s1.grey := by rw [G1]; exact hw
        exact N2 w hw1 (N1 w hw hwb)

theorem dfsVisit_ok_inv (dep : String → List String) :
    ∀ fuel : Nat, ∀ u s s2, dfsVisit dep fuel u s = .ok s2 →
      (LayeredList dep s.black → LayeredList dep s2.black) ∧
      s2.grey = s.grey ∧
      (∃ t, s2.black = s.black ++ t) ∧
      u ∈ s2.black ∧
      (∀ w ∈ s.grey, w ∉ s.black → w ∉ s2.black) := by
  intro fuel
  induction fuel with
  | zero =>
    intro u s s2 h
    rw [dfsVisit_zero] at h
    cases h
  | succ fuel ih =>
    intro u s s2 h
    rw [dfsVisit_succ] at h
    by_cases hb : u ∈ s.black
    · rw [if_pos hb] at h
      injection h with h
      subst h
      exact ⟨fun hl => hl, rfl, ⟨[], (List.append_nil _).symm⟩, hb,
        fun w hw hwb => hwb⟩
    · rw [if_neg hb] at h
      by_cases hg : u ∈ s.grey
      · rw [if_pos hg] at h
        cases h
      · rw [if_neg hg] at h
        cases hh : dfsList dep fuel (dep u) ⟨s.black, u :: s.grey⟩ with
        | error c => rw [hh] at h; cases h
        | ok s1 =>
          rw [hh] at h
          injection h with h
          subst h
          obtain ⟨L1, G1, ⟨t1, B1⟩, M1, N1⟩ :=
            dfsList_ok_inv dep fuel ih (dep u) ⟨s.black, u :: s.grey⟩ s1 hh
          have hub : u ∉ s1.black := N1 u (List.mem_cons_self u s.grey) hb
          refine ⟨?_, rfl, ⟨t1 ++ [u], ?_⟩, ?_, ?_⟩
          · intro hl
            exact LayeredList.snoc (L1 hl) M1 hub
          · show s1.black ++ [u] = s.black ++ (t1 ++ [u])
            rw [B1, List.append_assoc]
          · exact List.mem_append_right _ (List.mem_singleton.mpr rfl)
          · intro w hw hwb hmem
            rcases List.mem_append.mp hmem with hm | hm
            · exact N1 w (List.mem_cons_of_mem u hw) hwb hm
            · have hwu : w = u := List.mem_singleton.mp hm
              exact hg (hwu ▸ hw)

theorem dfsAll_ok (dep : String → List String) (fuel : Nat)
    (names order : List String) (h : dfsAll dep fuel names = .ok order) :
    LayeredList dep order ∧ ∀ v ∈ names, v ∈ order := by
  unfold dfsAll at h
  cases hh : dfsList dep fuel names ⟨[], []⟩ with
  | error c => rw [hh] at h; cases h
  | ok s =>
    rw [hh] at h
    injection h with h
    subst h
    obtain ⟨L, _, _, M, _⟩ :=
      dfsList_ok_inv dep fuel (dfsVisit_ok_inv dep fuel) names ⟨[], []⟩ s hh
    exact ⟨L LayeredList.nil, M⟩

theorem layered_rank {dep : String → List String} {L : List String}
    (h : LayeredList dep L) :
    ∃ r : String → Nat, (∀ u ∈ L, r u < L.length) ∧
      (∀ u ∈ L, ∀ v ∈ dep u, v ∈ L ∧ r v < r u) := by
  induction h with
  | nil => exact ⟨fun _ => 0, by simp, by simp⟩
  | @snoc L u hL hdeps hu ih =>
    obtain ⟨r, hb, hr⟩ := ih
    have hlen : (L ++ [u]).length = L.length + 1 := by simp
    refine ⟨fun w => if w = u then L.length else r w, ?_, ?_⟩
    · intro x hx
      dsimp only
      rcases List.mem_append.mp hx with hm | hm
      · have hxu : x ≠ u := fun he => hu (he ▸ hm)
        rw [if_neg hxu, hlen]
        exact Nat.lt_succ_of_lt (hb x hm)
      · have hxeq : x = u := List.mem_singleton.mp hm
        subst hxeq
        rw [if_pos rfl, hlen]
        exact Nat.lt_succ_self _
    · intro x hx v hv
      dsimp only
      rcases List.mem_append.mp hx with hm | hm
      · have hxu : x ≠ u := fun he => hu (he ▸ hm)
        have h2 := hr x hm v hv
        have hvu : v ≠ u := fun he => hu (he ▸ h2.1)
        rw [if_neg hxu, if_neg hvu]
        exact ⟨List.mem_append_left _ h2.1, h2.2⟩
      · have hxeq : x = u := List.mem_singleton.mp hm
        subst hxeq
        have hvL : v ∈ L := hdeps v hv
        have hvu : v ≠ x := fun he => hu (he ▸ hvL)
        rw [if_pos rfl, if_neg hvu]
        exact ⟨List.mem_append_left _ hvL, hb v hvL⟩

theorem depPath_rank {dep : String → List String} {L : List String}
    {r : String → Nat}
    (hr : ∀ u ∈ L, ∀ v ∈ dep u, v ∈ L ∧ r v < r u) :
    ∀ {u v : String}, DepPath dep u v → u ∈ L → v ∈ L ∧ r v < r u := by
  intro u v hp
  induction hp with
  | single he => intro hu; exact hr _ hu _ he
  | cons he hp2 ih =>
    intro hu
    have h1 := hr _ hu _ he
    have h2 := ih h1.1
    exact ⟨h2.1, h2.2.trans h1.2⟩

theorem layered_no_cycle {dep : String → List String} {L : List String}
    (hL : LayeredList dep L) {u : String} (hu : u ∈ L)
    (hp : DepPath dep u u) : False := by
  obtain ⟨r, _, hr⟩ := layered_rank hL
  exact absurd (depPath_rank hr hp hu).2 (lt_irrefl _)

/-- Claim C5: graph construction rejects duplicate step names, dependency
names absent from the step set, and dependency cycles (any set of steps
containing a cycle is refused by the three-colour traversal, since a
successful traversal yields a dependency-layered order that admits a
strictly decreasing rank along every dependency path); and every structural
error aborts the run before anything executes — run_process returns the
bare error and no step execution state is ever created. -/
theorem build_plan_rejects_structural (steps : List ProcessStep)
    (sched : ExecGraph → List (String × StepStatus)) :
    (¬ (steps.map (fun st => st.name)).Nodup →
      build_execution_plan steps = .error .duplicateStep) ∧
    ((steps.map (fun st => st.name)).Nodup →
      ¬ (∀ st ∈ steps, ∀ d ∈ st.dependencies, d ∈ steps.map (fun st => st.name)) →
      build_execution_plan steps = .error .unknownDependency) ∧
    ((steps.map (fun st => st.name)).Nodup →
      (∀ st ∈ steps, ∀ d ∈ st.dependencies, d ∈ steps.map (fun st => st.name)) →
      HasCycle steps →
      ∃ c, build_execution_plan steps = .error (.cyclicDependency c)) ∧
    (∀ e, build_execution_plan steps = .error e →
      run_process sched steps = .error e) := by
  refine ⟨?_, ?_, ?_, ?_⟩
  · intro hnd
    simp only [build_execution_plan]
    rw [if_neg hnd]
  · intro hnd hun
    simp only [build_execution_plan]
    rw [if_pos hnd, if_neg hun]
  · intro hnd hkn hcyc
    simp only [build_execution_plan]
    rw [if_pos hnd, if_pos hkn]
    cases hda : dfsAll (depFun steps) ((steps.map (fun st => st.name)).length + 1)
        (steps.map (fun st => st.name)) with
    | error c => exact ⟨c, rfl⟩
    | ok order =>
      exfalso
      obtain ⟨hL, hM⟩ := dfsAll_ok _ _ _ _ hda
      obtain ⟨u, hu, hp⟩ := hcyc
      exact layered_no_cycle hL (hM u hu) hp
  · intro e he
    unfold run_process
    rw [he]
